import Mathlib

/-!
Shallow embedding of the collaborative-canvas session/history subsystem.

The server keeps, per room, a drawing state (`src/server/drawing-state.js`):
a list of canvas snapshots (`history`), an integer cursor into it
(`historyIndex`, -1 meaning no snapshot), and a bounded log of recent
drawing operations (`operations`) used only to onboard late joiners.
Mutation is modelled by explicit state passing; the nondeterministic
inputs of the JS code (`Date.now()`, `generateOperationId()`,
`Math.random()`) are passed in as explicit parameters.
-/

namespace Canvas

/-- Model of JavaScript `array.slice(0, e)` : a negative end index counts
from the end of the array. -/
def jsSlice0 {α : Type} (l : List α) (e : Int) : List α :=
  if e < 0 then l.take ((l.length : Int) + e).toNat else l.take e.toNat

/-- A canvas snapshot as stored by `saveSnapshot`:
`{ dataURL: canvasDataURL, timestamp: Date.now() }`. -/
structure Snapshot where
  dataURL : String
  timestamp : Nat
deriving DecidableEq

/-- A stored drawing operation as built by `addOperation`:
`{ ...operation, operationId: generated, timestamp: Date.now() }`.
The spread payload of the incoming operation is kept opaque. -/
structure StoredOp where
  payload : String
  operationId : String
  timestamp : Nat
deriving DecidableEq

/-- Per-room drawing state (`initializeRoomState`): `history`,
`historyIndex`, `operations` and the `metadata.lastModified` field. -/
structure RoomState where
  history : List Snapshot
  historyIndex : Int
  operations : List StoredOp
  lastModified : Nat
deriving DecidableEq

/-- `initializeRoomState`: empty history, cursor -1, empty operations. -/
def initializeRoomState (now : Nat) : RoomState :=
  { history := [], historyIndex := -1, operations := [], lastModified := now }

/-- `const MAX_OPERATIONS = 500` in `addOperation`. -/
def MAX_OPERATIONS : Nat := 500

/-- `const MAX_HISTORY = 20` in `saveSnapshot`. -/
def MAX_HISTORY : Nat := 20

/-- `addOperation(roomId, operation)`: append the stamped operation, then
`shift()` the oldest entry off when the log length exceeds 500.  Returns
the stored operation together with the updated state. -/
def addOperation (st : RoomState) (payload opId : String) (now : Nat) :
    StoredOp × RoomState :=
  let op : StoredOp := { payload := payload, operationId := opId, timestamp := now }
  let ops := st.operations ++ [op]
  let ops := if ops.length > MAX_OPERATIONS then ops.drop 1 else ops
  (op, { st with operations := ops, lastModified := now })

/-- `getRecentOperations(roomId, count)`: `state.operations.slice(-count)`.
JavaScript `slice(-0)` is `slice(0)`, the whole array; for positive `count`
it is the last `count` elements. -/
def getRecentOperations (st : RoomState) (count : Nat) : List StoredOp :=
  if count = 0 then st.operations
  else st.operations.drop (st.operations.length - count)

/-- The `join-room` handler in `server.js` replays
`getRecentOperations(currentRoomId, 100)` to the newly joined member. -/
def joinRecentOps (st : RoomState) : List StoredOp :=
  getRecentOperations st 100

/-- `clearOperations(roomId)`: empties `operations` and `history`, resets
`historyIndex` to -1. -/
def clearOperations (st : RoomState) (now : Nat) : RoomState :=
  { st with operations := [], history := [], historyIndex := -1,
            lastModified := now }

/-- `saveSnapshot(roomId, canvasDataURL)`: truncate the redo branch when
`historyIndex < history.length - 1`, push the new snapshot, set the cursor
to the new tail, then evict the oldest snapshot (decrementing the cursor)
when the history exceeds 20 entries. -/
def saveSnapshot (st : RoomState) (canvasDataURL : String) (now : Nat) :
    RoomState :=
  let hist :=
    if st.historyIndex < (st.history.length : Int) - 1 then
      jsSlice0 st.history (st.historyIndex + 1)
    else st.history
  let hist := hist ++ [{ dataURL := canvasDataURL, timestamp := now }]
  let idx : Int := (hist.length : Int) - 1
  if hist.length > MAX_HISTORY then
    { st with history := hist.drop 1, historyIndex := idx - 1 }
  else
    { st with history := hist, historyIndex := idx }

/-- Result of `undo` / `redo`: either `{success:false, message}` or
`{success:true, canvasDataURL, index}`.  The `canvasDataURL` is an
`Option` because JavaScript `history[i]` yields `undefined` out of
bounds. -/
inductive UndoRedoResult where
  | failure (message : String)
  | success (canvasDataURL : Option String) (index : Int)
deriving DecidableEq

/-- `undo(roomId)`: fail when `historyIndex <= 0`, otherwise decrement the
cursor and return the snapshot now at the cursor. -/
def undo (st : RoomState) : UndoRedoResult × RoomState :=
  if st.historyIndex ≤ 0 then
    (.failure "Nothing to undo", st)
  else
    let idx := st.historyIndex - 1
    (.success ((st.history[idx.toNat]?).map Snapshot.dataURL) idx,
     { st with historyIndex := idx })

/-- `redo(roomId)`: fail when `historyIndex >= history.length - 1`,
otherwise increment the cursor and return the snapshot now at the
cursor. -/
def redo (st : RoomState) : UndoRedoResult × RoomState :=
  if st.historyIndex ≥ (st.history.length : Int) - 1 then
    (.failure "Nothing to redo", st)
  else
    let idx := st.historyIndex + 1
    (.success ((st.history[idx.toNat]?).map Snapshot.dataURL) idx,
     { st with historyIndex := idx })

/-- States reachable from a freshly initialized room state by the
operations of the drawing state manager. -/
inductive Reachable : RoomState → Prop
  | init (now : Nat) : Reachable (initializeRoomState now)
  | save {s} (h : Reachable s) (url : String) (now : Nat) :
      Reachable (saveSnapshot s url now)
  | undoStep {s} (h : Reachable s) : Reachable (undo s).2
  | redoStep {s} (h : Reachable s) : Reachable (redo s).2
  | clearStep {s} (h : Reachable s) (now : Nat) :
      Reachable (clearOperations s now)
  | addOpStep {s} (h : Reachable s) (payload opId : String) (now : Nat) :
      Reachable (addOperation s payload opId now).2

/-- Invariant of the per-room drawing state: the cursor stays in
`[-1, history.length - 1]`, is -1 exactly on an empty history, the
history holds at most 20 snapshots and the log at most 500 operations. -/
def Inv (s : RoomState) : Prop :=
  -1 ≤ s.historyIndex ∧
  s.historyIndex ≤ (s.history.length : Int) - 1 ∧
  (s.historyIndex = -1 ↔ s.history.length = 0) ∧
  s.history.length ≤ MAX_HISTORY ∧
  s.operations.length ≤ MAX_OPERATIONS

theorem jsSlice0_nonneg {α : Type} (l : List α) (e : Int) (h : 0 ≤ e) :
    jsSlice0 l e = l.take e.toNat := by
  unfold jsSlice0
  rw [if_neg (by omega)]

theorem inv_init (now : Nat) : Inv (initializeRoomState now) := by
  simp [Inv, initializeRoomState, MAX_HISTORY, MAX_OPERATIONS]

theorem inv_save {s} (h : Inv s) (url : String) (now : Nat) :
    Inv (saveSnapshot s url now) := by
  obtain ⟨h1, h2, h3, h4, h5⟩ := h
  simp only [MAX_HISTORY] at h4
  simp only [Inv, saveSnapshot, jsSlice0, MAX_HISTORY, MAX_OPERATIONS,
    gt_iff_lt] at h5 ⊢
  split_ifs with hc hneg he he he <;>
    simp only [List.length_append, List.length_take, List.length_drop,
      List.length_cons, List.length_nil] at he ⊢ <;>
    refine ⟨?_, ?_, ?_, ?_, h5⟩ <;>
    omega

theorem inv_undo {s} (h : Inv s) : Inv (undo s).2 := by
  obtain ⟨h1, h2, h3, h4, h5⟩ := h
  by_cases hc : s.historyIndex ≤ 0
  · simp only [undo, if_pos hc]
    exact ⟨h1, h2, h3, h4, h5⟩
  · simp only [undo, if_neg hc]
    refine ⟨?_, ?_, ?_, h4, h5⟩ <;> dsimp only <;> omega

theorem inv_redo {s} (h : Inv s) : Inv (redo s).2 := by
  obtain ⟨h1, h2, h3, h4, h5⟩ := h
  by_cases hc : s.historyIndex ≥ (s.history.length : Int) - 1
  · simp only [redo, if_pos hc]
    exact ⟨h1, h2, h3, h4, h5⟩
  · simp only [redo, if_neg hc]
    refine ⟨?_, ?_, ?_, h4, h5⟩ <;> dsimp only <;> omega

theorem inv_clear {s} (_ : Inv s) (now : Nat) : Inv (clearOperations s now) := by
  simp [Inv, clearOperations, MAX_HISTORY, MAX_OPERATIONS]

theorem inv_addOp {s} (h : Inv s) (payload opId : String) (now : Nat) :
    Inv (addOperation s payload opId now).2 := by
  obtain ⟨h1, h2, h3, h4, h5⟩ := h
  unfold addOperation
  refine ⟨h1, h2, h3, h4, ?_⟩
  simp only
  split
  · simp only [List.length_drop, List.length_append, List.length_cons,
      List.length_nil]
    omega
  · rename_i hle
    simp only [List.length_append, List.length_cons, List.length_nil,
      gt_iff_lt, not_lt] at hle ⊢
    omega

theorem inv_of_reachable {s} (h : Reachable s) : Inv s := by
  induction h with
  | init now => exact inv_init now
  | save _ url now ih => exact inv_save ih url now
  | undoStep _ ih => exact inv_undo ih
  | redoStep _ ih => exact inv_redo ih
  | clearStep _ now ih => exact inv_clear ih now
  | addOpStep _ payload opId now ih => exact inv_addOp ih payload opId now

/-- The history obtained inside `saveSnapshot` right after truncation and
append, before the capacity check. -/
def pushedHistory (st : RoomState) (canvasDataURL : String) (now : Nat) :
    List Snapshot :=
  (if st.historyIndex < (st.history.length : Int) - 1 then
    st.history.take (st.historyIndex + 1).toNat
  else st.history) ++ [{ dataURL := canvasDataURL, timestamp := now }]

/-- Sequential pushes with the cursor always at the tail: the n-th pushed
snapshot carries timestamp n. -/
def pushSeq : Nat → RoomState
  | 0 => initializeRoomState 0
  | n + 1 => saveSnapshot (pushSeq n) "S" (n + 1)

theorem saveSnapshot_eq_of_no_evict (st : RoomState) (url : String)
    (now : Nat) (h0 : -1 ≤ st.historyIndex)
    (hlen : (pushedHistory st url now).length ≤ MAX_HISTORY) :
    saveSnapshot st url now =
      { st with history := pushedHistory st url now,
                historyIndex := ((pushedHistory st url now).length : Int) - 1 } := by
  unfold pushedHistory at hlen ⊢
  simp only [saveSnapshot]
  rw [jsSlice0_nonneg _ _ (by omega)]
  rw [if_neg (not_lt.mpr hlen)]

theorem saveSnapshot_eq_of_evict (st : RoomState) (url : String)
    (now : Nat) (h0 : -1 ≤ st.historyIndex)
    (hlen : MAX_HISTORY < (pushedHistory st url now).length) :
    saveSnapshot st url now =
      { st with history := (pushedHistory st url now).drop 1,
                historyIndex :=
                  (((pushedHistory st url now).length : Int) - 1) - 1 } := by
  unfold pushedHistory at hlen ⊢
  simp only [saveSnapshot]
  rw [jsSlice0_nonneg _ _ (by omega)]
  rw [if_pos hlen]

/-- C1: when the cursor sits strictly before the tail, `saveSnapshot`
discards the snapshots after the cursor before appending the new one, and
afterwards the cursor equals `history.length - 1`; concretely, from
snapshots [S1,S2,S3] with cursor 0, pushing S4 yields [S1,S4] with
cursor 1. -/
theorem c1_saveSnapshot_truncates_redo_branch :
    (∀ (st : RoomState) (url : String) (now : Nat),
      -1 ≤ st.historyIndex →
      st.historyIndex < (st.history.length : Int) - 1 →
      st.history.length ≤ 20 →
      (saveSnapshot st url now).history =
        st.history.take (st.historyIndex + 1).toNat ++
          [{ dataURL := url, timestamp := now }] ∧
      (saveSnapshot st url now).historyIndex =
        ((saveSnapshot st url now).history.length : Int) - 1) ∧
    saveSnapshot
        { history := [{ dataURL := "S1", timestamp := 1 },
                      { dataURL := "S2", timestamp := 2 },
                      { dataURL := "S3", timestamp := 3 }],
          historyIndex := 0, operations := [], lastModified := 0 } "S4" 4 =
      { history := [{ dataURL := "S1", timestamp := 1 },
                    { dataURL := "S4", timestamp := 4 }],
        historyIndex := 1, operations := [], lastModified := 0 } := by
  constructor
  · intro st url now h0 h1 h2
    have hpush : (pushedHistory st url now).length ≤ MAX_HISTORY := by
      unfold pushedHistory MAX_HISTORY
      rw [if_pos h1]
      simp only [List.length_append, List.length_take, List.length_cons,
        List.length_nil]
      omega
    rw [saveSnapshot_eq_of_no_evict st url now h0 hpush]
    refine ⟨?_, rfl⟩
    dsimp only
    unfold pushedHistory
    rw [if_pos h1]
  · decide

/-- Witness for C1 at a concrete interior-cursor state. -/
theorem c1_saveSnapshot_truncates_redo_branch_witness :
    (saveSnapshot
        { history := [{ dataURL := "A", timestamp := 1 },
                      { dataURL := "B", timestamp := 2 }],
          historyIndex := 0, operations := [], lastModified := 0 } "C" 3).history =
      [{ dataURL := "A", timestamp := 1 }].take 1 ++
        [{ dataURL := "C", timestamp := 3 }] ∨
    (saveSnapshot
        { history := [{ dataURL := "A", timestamp := 1 },
                      { dataURL := "B", timestamp := 2 }],
          historyIndex := 0, operations := [], lastModified := 0 } "C" 3).history =
      ([{ dataURL := "A", timestamp := 1 },
        { dataURL := "B", timestamp := 2 }] : List Snapshot).take
          ((0 : Int) + 1).toNat ++ [{ dataURL := "C", timestamp := 3 }] :=
  Or.inr
    (c1_saveSnapshot_truncates_redo_branch.1
      { history := [{ dataURL := "A", timestamp := 1 },
                    { dataURL := "B", timestamp := 2 }],
        historyIndex := 0, operations := [], lastModified := 0 } "C" 3
      (by decide) (by decide) (by decide)).1

/-- C2: from the initial state, under any sequence of saveSnapshot, undo,
redo, clearOperations and addOperation calls, the cursor stays in
`[-1, history.length - 1]`, and is -1 exactly when no snapshot exists. -/
theorem c2_cursor_stays_in_range (s : RoomState) (h : Reachable s) :
    -1 ≤ s.historyIndex ∧
      s.historyIndex ≤ (s.history.length : Int) - 1 ∧
      (s.historyIndex = -1 ↔ s.history = []) := by
  obtain ⟨h1, h2, h3, _, _⟩ := inv_of_reachable h
  exact ⟨h1, h2, by rw [h3, List.length_eq_zero]⟩

/-- Witness for C2 at a concrete reachable state (save, save, undo). -/
theorem c2_cursor_stays_in_range_witness :
    -1 ≤ (undo (saveSnapshot (saveSnapshot (initializeRoomState 0) "S1" 1) "S2" 2)).2.historyIndex ∧
      (undo (saveSnapshot (saveSnapshot (initializeRoomState 0) "S1" 1) "S2" 2)).2.historyIndex ≤
        (((undo (saveSnapshot (saveSnapshot (initializeRoomState 0) "S1" 1) "S2" 2)).2.history.length : Int)) - 1 ∧
      ((undo (saveSnapshot (saveSnapshot (initializeRoomState 0) "S1" 1) "S2" 2)).2.historyIndex = -1 ↔
        (undo (saveSnapshot (saveSnapshot (initializeRoomState 0) "S1" 1) "S2" 2)).2.history = []) :=
  c2_cursor_stays_in_range _
    (Reachable.undoStep (Reachable.save (Reachable.save (Reachable.init 0) "S1" 1) "S2" 2))

set_option maxRecDepth 16384 in
/-- C3: the history never exceeds 20 snapshots; when a push evicts, it
removes exactly the oldest snapshot of the just-pushed history and the
cursor comes out one below its just-assigned tail value; pushing 21
snapshots sequentially leaves 20 snapshots with the first one evicted. -/
theorem c3_history_capacity :
    (∀ s : RoomState, Reachable s → s.history.length ≤ 20) ∧
    (∀ (st : RoomState) (url : String) (now : Nat),
      -1 ≤ st.historyIndex →
      20 < (pushedHistory st url now).length →
      (saveSnapshot st url now).history = (pushedHistory st url now).drop 1 ∧
      (saveSnapshot st url now).historyIndex =
        (((pushedHistory st url now).length : Int) - 1) - 1) ∧
    ((pushSeq 21).history.length = 20 ∧
     (pushSeq 21).history.map Snapshot.timestamp =
       (List.range 20).map (fun i => i + 2) ∧
     (pushSeq 21).historyIndex = 19) := by
  refine ⟨?_, ?_, by decide⟩
  · intro s h
    obtain ⟨_, _, _, h4, _⟩ := inv_of_reachable h
    exact h4
  · intro st url now h0 hev
    rw [saveSnapshot_eq_of_evict st url now h0 hev]
    exact ⟨rfl, rfl⟩

set_option maxRecDepth 16384 in
/-- Witness for C3: capacity at a concrete reachable state, and the
eviction shape at a concrete full history. -/
theorem c3_history_capacity_witness :
    (pushSeq 3).history.length ≤ 20 ∧
    (saveSnapshot (pushSeq 20) "T" 99).history =
      (pushedHistory (pushSeq 20) "T" 99).drop 1 := by
  have hreach : ∀ n : Nat, Reachable (pushSeq n) := by
    intro n
    induction n with
    | zero => exact Reachable.init 0
    | succ k ih => exact Reachable.save ih "S" (k + 1)
  refine ⟨c3_history_capacity.1 _ (hreach 3), ?_⟩
  exact (c3_history_capacity.2.1 (pushSeq 20) "T" 99 (by decide) (by decide)).1

/-- C4: undo fails iff the cursor is at most 0 (on the empty history with
message "Nothing to undo"), redo fails iff the cursor is at the tail;
failures leave the state unchanged, successes move the cursor by one and
return the snapshot now at the cursor. -/
theorem c4_undo_redo_boundaries (st : RoomState)
    (hlo : -1 ≤ st.historyIndex)
    (hhi : st.historyIndex ≤ (st.history.length : Int) - 1) :
    ((undo st).1 = .failure "Nothing to undo" ↔ st.historyIndex ≤ 0) ∧
    (st.historyIndex ≤ 0 → (undo st).2 = st) ∧
    (0 < st.historyIndex →
      (undo st).2.historyIndex = st.historyIndex - 1 ∧
      (undo st).2.history = st.history ∧
      ∃ snap, st.history[(st.historyIndex - 1).toNat]? = some snap ∧
        (undo st).1 = .success (some snap.dataURL) (st.historyIndex - 1)) ∧
    ((redo st).1 = .failure "Nothing to redo" ↔
      (st.history.length : Int) - 1 ≤ st.historyIndex) ∧
    ((st.history.length : Int) - 1 ≤ st.historyIndex → (redo st).2 = st) ∧
    (st.historyIndex < (st.history.length : Int) - 1 →
      (redo st).2.historyIndex = st.historyIndex + 1 ∧
      (redo st).2.history = st.history ∧
      ∃ snap, st.history[(st.historyIndex + 1).toNat]? = some snap ∧
        (redo st).1 = .success (some snap.dataURL) (st.historyIndex + 1)) := by
  refine ⟨?_, ?_, ?_, ?_, ?_, ?_⟩
  · constructor
    · intro h
      by_contra hc
      simp only [undo, if_neg hc] at h
      exact UndoRedoResult.noConfusion h
    · intro h
      simp only [undo, if_pos h]
  · intro h
    simp only [undo, if_pos h]
  · intro h
    have hc : ¬ st.historyIndex ≤ 0 := by omega
    have hb : (st.historyIndex - 1).toNat < st.history.length := by omega
    refine ⟨by simp only [undo, if_neg hc], by simp only [undo, if_neg hc], ?_⟩
    refine ⟨st.history[(st.historyIndex - 1).toNat], List.getElem?_eq_getElem hb, ?_⟩
    simp only [undo, if_neg hc, List.getElem?_eq_getElem hb]
    rfl
  · constructor
    · intro h
      by_contra hc
      have hc2 : ¬ st.historyIndex ≥ (st.history.length : Int) - 1 := by omega
      simp only [redo, if_neg hc2] at h
      exact UndoRedoResult.noConfusion h
    · intro h
      simp only [redo, if_pos (show st.historyIndex ≥ (st.history.length : Int) - 1 from h)]
  · intro h
    simp only [redo, if_pos (show st.historyIndex ≥ (st.history.length : Int) - 1 from h)]
  · intro h
    have hc : ¬ st.historyIndex ≥ (st.history.length : Int) - 1 := by omega
    have hb : (st.historyIndex + 1).toNat < st.history.length := by omega
    refine ⟨by simp only [redo, if_neg hc], by simp only [redo, if_neg hc], ?_⟩
    refine ⟨st.history[(st.historyIndex + 1).toNat], List.getElem?_eq_getElem hb, ?_⟩
    simp only [redo, if_neg hc, List.getElem?_eq_getElem hb]
    rfl

/-- Witness for C4 at a concrete two-snapshot state with cursor 1. -/
theorem c4_undo_redo_boundaries_witness :
    ((undo { history := [{ dataURL := "A", timestamp := 1 },
                         { dataURL := "B", timestamp := 2 }],
             historyIndex := 1, operations := [], lastModified := 0 }).1 =
        .failure "Nothing to undo" ↔
      (1 : Int) ≤ 0) ∧
    ((undo { history := [{ dataURL := "A", timestamp := 1 },
                         { dataURL := "B", timestamp := 2 }],
             historyIndex := 1, operations := [], lastModified := 0 }).2.historyIndex = 0 ∧
      (undo { history := [{ dataURL := "A", timestamp := 1 },
                          { dataURL := "B", timestamp := 2 }],
              historyIndex := 1, operations := [], lastModified := 0 }).2.history =
        [{ dataURL := "A", timestamp := 1 }, { dataURL := "B", timestamp := 2 }] ∧
      ∃ snap,
        ([{ dataURL := "A", timestamp := 1 },
          { dataURL := "B", timestamp := 2 }] : List Snapshot)[((1 : Int) - 1).toNat]? =
            some snap ∧
        (undo { history := [{ dataURL := "A", timestamp := 1 },
                            { dataURL := "B", timestamp := 2 }],
                historyIndex := 1, operations := [], lastModified := 0 }).1 =
          .success (some snap.dataURL) ((1 : Int) - 1)) := by
  have h := c4_undo_redo_boundaries
    { history := [{ dataURL := "A", timestamp := 1 },
                  { dataURL := "B", timestamp := 2 }],
      historyIndex := 1, operations := [], lastModified := 0 }
    (by decide) (by decide)
  exact ⟨h.1, h.2.2.1 (by decide)⟩

/-- C5: from an interior cursor position, undo followed by redo restores
the original cursor and returns the snapshot at that cursor, leaving the
snapshot list unchanged throughout. -/
theorem c5_undo_redo_roundtrip (st : RoomState)
    (hlo : 0 < st.historyIndex)
    (hhi : st.historyIndex ≤ (st.history.length : Int) - 1) :
    (undo st).2.history = st.history ∧
    (redo (undo st).2).2.history = st.history ∧
    (redo (undo st).2).2.historyIndex = st.historyIndex ∧
    ∃ snap, st.history[st.historyIndex.toNat]? = some snap ∧
      (redo (undo st).2).1 = .success (some snap.dataURL) st.historyIndex := by
  have hc : ¬ st.historyIndex ≤ 0 := by omega
  have hr : ¬ (st.historyIndex - 1) ≥ (st.history.length : Int) - 1 := by omega
  have hb : st.historyIndex.toNat < st.history.length := by omega
  have harith : st.historyIndex - 1 + 1 = st.historyIndex := by omega
  refine ⟨by simp only [undo, if_neg hc], ?_, ?_, ?_⟩
  · simp only [undo, if_neg hc, redo, if_neg hr]
  · simp only [undo, if_neg hc, redo, if_neg hr, harith]
  · refine ⟨st.history[st.historyIndex.toNat], List.getElem?_eq_getElem hb, ?_⟩
    simp only [undo, if_neg hc, redo, if_neg hr, harith,
      List.getElem?_eq_getElem hb]
    rfl

/-- Witness for C5 at a concrete three-snapshot state with cursor 1. -/
theorem c5_undo_redo_roundtrip_witness :
    (redo (undo { history := [{ dataURL := "A", timestamp := 1 },
                              { dataURL := "B", timestamp := 2 },
                              { dataURL := "C", timestamp := 3 }],
                  historyIndex := 1, operations := [], lastModified := 0 }).2).2.historyIndex =
      1 := by
  have h := c5_undo_redo_roundtrip
    { history := [{ dataURL := "A", timestamp := 1 },
                  { dataURL := "B", timestamp := 2 },
                  { dataURL := "C", timestamp := 3 }],
      historyIndex := 1, operations := [], lastModified := 0 }
    (by decide) (by decide)
  exact h.2.2.1

/-- C6: clearOperations empties the snapshot history and the operations
log and resets the cursor to -1, from any prior state. -/
theorem c6_clear_resets_everything (st : RoomState) (now : Nat) :
    (clearOperations st now).history = [] ∧
    (clearOperations st now).operations = [] ∧
    (clearOperations st now).historyIndex = -1 :=
  ⟨rfl, rfl, rfl⟩

/-- C7: addOperation appends the stamped operation to the log, evicting
exactly the oldest entry when the log would exceed 500, keeps the log at
or below 500 entries, and leaves the snapshot history and the cursor
unchanged. -/
theorem c7_addOperation_appends_bounded (st : RoomState)
    (payload opId : String) (now : Nat)
    (hlen : st.operations.length ≤ 500) :
    (addOperation st payload opId now).1 =
      { payload := payload, operationId := opId, timestamp := now } ∧
    (addOperation st payload opId now).2.operations.length ≤ 500 ∧
    (st.operations.length < 500 →
      (addOperation st payload opId now).2.operations =
        st.operations ++
          [{ payload := payload, operationId := opId, timestamp := now }]) ∧
    (st.operations.length = 500 →
      (addOperation st payload opId now).2.operations =
        st.operations.drop 1 ++
          [{ payload := payload, operationId := opId, timestamp := now }]) ∧
    (addOperation st payload opId now).2.history = st.history ∧
    (addOperation st payload opId now).2.historyIndex = st.historyIndex := by
  refine ⟨rfl, ?_, ?_, ?_, ?_, ?_⟩
  · simp only [addOperation, MAX_OPERATIONS, gt_iff_lt]
    split_ifs with h <;>
      simp only [List.length_drop, List.length_append, List.length_cons,
        List.length_nil] at h ⊢ <;>
      omega
  · intro h
    simp only [addOperation, MAX_OPERATIONS, gt_iff_lt]
    rw [if_neg (by
      simp only [List.length_append, List.length_cons, List.length_nil]
      omega)]
  · intro h
    simp only [addOperation, MAX_OPERATIONS, gt_iff_lt]
    rw [if_pos (by
      simp only [List.length_append, List.length_cons, List.length_nil]
      omega)]
    exact List.drop_append_of_le_length (by omega)
  · rfl
  · rfl

/-- Witness for C7 at the empty initial log. -/
theorem c7_addOperation_appends_bounded_witness :
    (addOperation (initializeRoomState 0) "stroke" "op_1" 7).1 =
      { payload := "stroke", operationId := "op_1", timestamp := 7 } ∧
    (addOperation (initializeRoomState 0) "stroke" "op_1" 7).2.operations =
      [{ payload := "stroke", operationId := "op_1", timestamp := 7 }] := by
  have h := c7_addOperation_appends_bounded (initializeRoomState 0)
    "stroke" "op_1" 7 (by decide)
  exact ⟨h.1, h.2.2.1 (by decide)⟩

/-- C10: the onboarding replay `getRecentOperations(roomId, 100)` used by
the join handler returns at most the 100 most recent log entries, a
suffix of the log in stored order (the whole log when it has at most 100
entries), while the log itself is bounded by 500 on reachable states; the
function reads the state without changing it. -/
theorem c10_join_replay_bounded (st : RoomState) :
    (joinRecentOps st).length ≤ 100 ∧
    joinRecentOps st <:+ st.operations ∧
    (100 ≤ st.operations.length → (joinRecentOps st).length = 100) ∧
    (st.operations.length ≤ 100 → joinRecentOps st = st.operations) ∧
    (Reachable st → st.operations.length ≤ 500) := by
  refine ⟨?_, ?_, ?_, ?_, ?_⟩
  · simp only [joinRecentOps, getRecentOperations, if_neg (by omega : ¬ (100 : Nat) = 0),
      List.length_drop]
    omega
  · simp only [joinRecentOps, getRecentOperations, if_neg (by omega : ¬ (100 : Nat) = 0)]
    exact List.drop_suffix _ _
  · intro h
    simp only [joinRecentOps, getRecentOperations, if_neg (by omega : ¬ (100 : Nat) = 0),
      List.length_drop]
    omega
  · intro h
    simp only [joinRecentOps, getRecentOperations, if_neg (by omega : ¬ (100 : Nat) = 0)]
    rw [Nat.sub_eq_zero_of_le h, List.drop_zero]
  · intro h
    obtain ⟨_, _, _, _, h5⟩ := inv_of_reachable h
    exact h5

/-- Witness for C10 at a concrete reachable one-operation state. -/
theorem c10_join_replay_bounded_witness :
    joinRecentOps (addOperation (initializeRoomState 0) "p" "op_1" 1).2 =
      (addOperation (initializeRoomState 0) "p" "op_1" 1).2.operations ∧
    (addOperation (initializeRoomState 0) "p" "op_1" 1).2.operations.length ≤ 500 := by
  have h := c10_join_replay_bounded (addOperation (initializeRoomState 0) "p" "op_1" 1).2
  exact ⟨h.2.2.2.1 (by decide),
    h.2.2.2.2 (Reachable.addOpStep (Reachable.init 0) "p" "op_1" 1)⟩

/-!
Room membership and color assignment (`src/server/rooms.js`).  A room's
`users` field is a JavaScript `Map` keyed by `userId`; it is modelled as
an association list in insertion order, with `Map.set` replacing the
entry in place when the key exists and appending otherwise, and
`Map.delete` removing it.  `Math.floor(Math.random() * n)` is an
arbitrary index below `n`, modelled by `r % n` for an arbitrary `r`.
-/

/-- A member as stored in `room.users`: the join payload plus the
assigned color and the `joinedAt` timestamp. -/
structure StoredUser where
  userId : String
  userName : String
  color : String
  joinedAt : Nat
deriving DecidableEq

/-- The user object passed to `addUserToRoom`; the server's `join-room`
handler always passes `color: null`. -/
structure JoinUser where
  userId : String
  userName : String
  color : Option String
deriving DecidableEq

/-- A room: its member map and capacity (`maxUsers`, default 50). -/
structure Room where
  users : List StoredUser
  maxUsers : Nat
deriving DecidableEq

/-- The fixed 16-color palette of `generateUserColor`. -/
def colors : List String :=
  ["#FF6B6B", "#4ECDC4", "#45B7D1", "#FFA07A",
   "#98D8C8", "#F7DC6F", "#BB8FCE", "#85C1E2",
   "#F8B739", "#52B788", "#E63946", "#457B9D",
   "#E76F51", "#2A9D8F", "#E9C46A", "#F4A261"]

/-- `generateUserColor(room)`: pick a random unused palette color, or a
random palette color when every palette color is in use. -/
def generateUserColor (room : Room) (r : Nat) : String :=
  let usedColors := room.users.map StoredUser.color
  let availableColors := colors.filter (fun c => !usedColors.contains c)
  if availableColors.length > 0 then
    availableColors.getD (r % availableColors.length) ""
  else
    colors.getD (r % colors.length) ""

/-- `Map.set` on the association list: replace in place or append. -/
def setUser : List StoredUser → StoredUser → List StoredUser
  | [], u => [u]
  | v :: vs, u => if v.userId = u.userId then u :: vs else v :: setUser vs u

/-- `Map.delete` on the association list. -/
def removeUser : List StoredUser → String → List StoredUser
  | [], _ => []
  | v :: vs, uid => if v.userId = uid then vs else v :: removeUser vs uid

/-- `addUserToRoom(roomId, user)`: reject when the room is full,
otherwise assign a color when the user has none and store the member. -/
def addUserToRoom (room : Room) (user : JoinUser) (r now : Nat) :
    Bool × Room :=
  if room.users.length ≥ room.maxUsers then
    (false, room)
  else
    let color :=
      match user.color with
      | some c => c
      | none => generateUserColor room r
    let stored : StoredUser :=
      { userId := user.userId, userName := user.userName,
        color := color, joinedAt := now }
    (true, { room with users := setUser room.users stored })

/-- `removeUserFromRoom(roomId, userId)`. -/
def removeUserFromRoom (room : Room) (userId : String) : Room :=
  { room with users := removeUser room.users userId }

/-- Rooms reachable from an empty room by joins that occur while the
member count is below the palette size (16) with a server-style join
payload (`color: null`), and by arbitrary leaves. -/
inductive ReachableRoom : Room → Prop
  | start (maxUsers : Nat) : ReachableRoom { users := [], maxUsers := maxUsers }
  | join {room} (h : ReachableRoom room) (user : JoinUser) (r now : Nat)
      (hcap : room.users.length < 16) (hcolor : user.color = none) :
      ReachableRoom (addUserToRoom room user r now).2
  | leave {room} (h : ReachableRoom room) (uid : String) :
      ReachableRoom (removeUserFromRoom room uid)

theorem colors_nodup : colors.Nodup := by decide

theorem colors_length : colors.length = 16 := by decide

theorem filter_unused_getElem_not_mem (l used : List String) (i : Nat)
    (h : i < (l.filter (fun c => !used.contains c)).length) :
    (l.filter (fun c => !used.contains c))[i] ∉ used := by
  have hmem := List.getElem_mem h
  have hpred := (List.mem_filter.mp hmem).2
  simp only [Bool.not_eq_true', List.contains] at hpred
  intro hmemUsed
  rw [List.elem_iff.mpr hmemUsed] at hpred
  cases hpred

theorem generateUserColor_fresh (room : Room) (r : Nat)
    (hcap : room.users.length < 16) :
    generateUserColor room r ∉ room.users.map StoredUser.color := by
  unfold generateUserColor
  set used := room.users.map StoredUser.color with hused
  have hlenused : used.length < 16 := by
    rw [hused, List.length_map]
    exact hcap
  have hpos : 0 < (colors.filter (fun c => !used.contains c)).length := by
    by_contra hz
    have hnil : colors.filter (fun c => !used.contains c) = [] := by
      cases hfe : colors.filter (fun c => !used.contains c) with
      | nil => rfl
      | cons a t => rw [hfe] at hz; simp at hz
    have hsub : colors ⊆ used := by
      intro c hc
      have := (List.filter_eq_nil_iff.mp hnil) c hc
      simp only [Bool.not_eq_true', Bool.not_eq_false, List.contains] at this
      exact ((List.elem_iff).mp this)
    have := (colors_nodup.subperm hsub).length_le
    rw [colors_length] at this
    omega
  rw [if_pos hpos]
  have hidx : r % (colors.filter (fun c => !used.contains c)).length <
      (colors.filter (fun c => !used.contains c)).length :=
    Nat.mod_lt _ hpos
  rw [List.getD_eq_getElem _ _ hidx]
  exact filter_unused_getElem_not_mem colors used _ hidx

theorem mem_map_color_setUser {l : List StoredUser} {u : StoredUser}
    {x : String} (h : x ∈ (setUser l u).map StoredUser.color) :
    x ∈ l.map StoredUser.color ∨ x = u.color := by
  induction l with
  | nil =>
    simp only [setUser, List.map_cons, List.map_nil, List.mem_cons,
      List.not_mem_nil, or_false] at h
    exact Or.inr h
  | cons v vs ih =>
    simp only [setUser] at h
    split_ifs at h with hid
    · simp only [List.map_cons, List.mem_cons] at h
      rcases h with h | h
      · exact Or.inr h
      · exact Or.inl (by simp [h])
    · simp only [List.map_cons, List.mem_cons] at h
      rcases h with h | h
      · exact Or.inl (by simp [h])
      · rcases ih h with h2 | h2
        · exact Or.inl (by simp [h2])
        · exact Or.inr h2

theorem nodup_color_setUser {l : List StoredUser} {u : StoredUser}
    (hfresh : u.color ∉ l.map StoredUser.color)
    (hnd : (l.map StoredUser.color).Nodup) :
    ((setUser l u).map StoredUser.color).Nodup := by
  induction l with
  | nil => simp [setUser]
  | cons v vs ih =>
    simp only [List.map_cons, List.mem_cons, not_or] at hfresh
    obtain ⟨hne, hfresh'⟩ := hfresh
    simp only [List.map_cons, List.nodup_cons] at hnd
    obtain ⟨hvnot, hnd'⟩ := hnd
    simp only [setUser]
    split_ifs with hid
    · simp only [List.map_cons, List.nodup_cons]
      exact ⟨hfresh', hnd'⟩
    · simp only [List.map_cons, List.nodup_cons]
      refine ⟨?_, ih hfresh' hnd'⟩
      intro hmem
      rcases mem_map_color_setUser hmem with h2 | h2
      · exact hvnot h2
      · exact hne h2.symm

theorem removeUser_sublist (l : List StoredUser) (uid : String) :
    (removeUser l uid).Sublist l := by
  induction l with
  | nil => simp [removeUser]
  | cons v vs ih =>
    simp only [removeUser]
    split_ifs with hid
    · exact List.sublist_cons_self v vs
    · exact List.Sublist.cons₂ v ih

theorem roomInv_of_reachable {room : Room} (h : ReachableRoom room) :
    (room.users.map StoredUser.color).Nodup := by
  induction h with
  | start maxUsers => simp
  | join h user r now hcap hcolor ih =>
    obtain ⟨uid, uname, ucolor⟩ := user
    dsimp only at hcolor
    subst hcolor
    simp only [addUserToRoom]
    split_ifs with hfull
    · exact ih
    · exact nodup_color_setUser (generateUserColor_fresh _ r hcap) ih
  | leave h uid ih =>
    exact ((removeUser_sublist _ uid).map StoredUser.color).nodup ih

/-- C8: along any sequence of joins (server payload, member count below
the 16-color palette) and leaves, no two simultaneously active members of
a room hold the same assigned color. -/
theorem c8_color_uniqueness (room : Room) (h : ReachableRoom room) :
    room.users.Pairwise (fun a b => a.color ≠ b.color) :=
  List.pairwise_map.mp (roomInv_of_reachable h)

/-- Witness for C8: two server-style joins into an empty room. -/
theorem c8_color_uniqueness_witness :
    (addUserToRoom (addUserToRoom { users := [], maxUsers := 50 }
        { userId := "u1", userName := "Alice", color := none } 0 0).2
        { userId := "u2", userName := "Bob", color := none } 3 1).2.users.Pairwise
      (fun a b => a.color ≠ b.color) :=
  c8_color_uniqueness _
    (ReachableRoom.join
      (ReachableRoom.join (ReachableRoom.start 50)
        { userId := "u1", userName := "Alice", color := none } 0 0
        (by decide) rfl)
      { userId := "u2", userName := "Bob", color := none } 3 1
      (by decide) rfl)

/-!
Client handling of the `canvas-cleared` broadcast (the client
`SocketManager.setupSocketListeners`).  The canvas surface is abstracted
as its current content; `clearRemoteCanvas` blanks it.
-/

/-- Client-side state: own user id and the abstract canvas content. -/
structure ClientState where
  userId : String
  canvasStrokes : List String
deriving DecidableEq

/-- `CanvasManager.clearRemoteCanvas()`: blank the surface. -/
def clearRemoteCanvas (c : ClientState) : ClientState :=
  { c with canvasStrokes := [] }

/-- The client's `canvas-cleared` handler:
`if (data.userId !== this.userId) window.canvasManager.clearRemoteCanvas()`. -/
def onCanvasCleared (c : ClientState) (originUserId : String) : ClientState :=
  if originUserId ≠ c.userId then clearRemoteCanvas c else c

/-- C9 counterexample: a self-originated `canvas-cleared` broadcast is
not applied — with own id "u1" and a non-blank canvas, the handler leaves
the canvas untouched instead of performing the clear transition. -/
theorem c9_not_unconditional :
    onCanvasCleared { userId := "u1", canvasStrokes := ["stroke1"] } "u1" ≠
      clearRemoteCanvas { userId := "u1", canvasStrokes := ["stroke1"] } := by
  decide

/-- C9 (amended): the client applies the `canvas-cleared` transition
exactly when the originating member id differs from its own; a
self-originated broadcast leaves the client state unchanged (the
originator already cleared locally when emitting). -/
theorem c9_clear_applied_iff_remote (c : ClientState) (origin : String) :
    (origin ≠ c.userId → onCanvasCleared c origin = clearRemoteCanvas c) ∧
    (origin = c.userId → onCanvasCleared c origin = c) := by
  constructor
  · intro h
    unfold onCanvasCleared
    rw [if_pos h]
  · intro h
    unfold onCanvasCleared
    rw [if_neg (fun hne => hne h)]

/-- Witness for C9 (amended) at concrete remote and self origins. -/
theorem c9_clear_applied_iff_remote_witness :
    onCanvasCleared { userId := "u1", canvasStrokes := ["s"] } "u2" =
      clearRemoteCanvas { userId := "u1", canvasStrokes := ["s"] } ∧
    onCanvasCleared { userId := "u1", canvasStrokes := ["s"] } "u1" =
      { userId := "u1", canvasStrokes := ["s"] } :=
  ⟨(c9_clear_applied_iff_remote { userId := "u1", canvasStrokes := ["s"] } "u2").1
      (by decide),
   (c9_clear_applied_iff_remote { userId := "u1", canvasStrokes := ["s"] } "u1").2
      rfl⟩

end Canvas
